import Mathlib

/-!
Verification of the kustforge resource-reference resolution and
template-mutation engine.  The Python sources are shallowly embedded:
strings are lists of characters, dictionaries are association lists with
Python dict update semantics (update in place, append new keys), and raised
exceptions are `Except` errors.  External collaborators (boto3 sessions,
resource handlers, the YAML library) are parameters of the embedded
functions.
-/

set_option synthInstance.maxSize 1024

/-- Python strings are modelled as lists of characters. -/
abbrev Str := List Char

instance {ε α : Type} [DecidableEq ε] [DecidableEq α] : DecidableEq (Except ε α) :=
  fun x y =>
    match x, y with
    | .ok a, .ok b =>
      if h : a = b then .isTrue (by rw [h])
      else .isFalse (fun hc => h (Except.ok.inj hc))
    | .error a, .error b =>
      if h : a = b then .isTrue (by rw [h])
      else .isFalse (fun hc => h (Except.error.inj hc))
    | .ok _, .error _ => .isFalse (fun hc => Except.noConfusion hc)
    | .error _, .ok _ => .isFalse (fun hc => Except.noConfusion hc)

/-- Whitespace characters stripped by Python `str.strip()` (ASCII range). -/
def pyIsSpace (c : Char) : Bool :=
  c = ' ' || c = '\t' || c = '\n' || c = '\r' ||
  c = Char.ofNat 11 || c = Char.ofNat 12

/-- Leading-whitespace removal, `str.lstrip()`. -/
def pyStripLead (s : Str) : Str := s.dropWhile pyIsSpace

/-- Trailing-whitespace removal, `str.rstrip()`. -/
def pyStripTrail (s : Str) : Str := (s.reverse.dropWhile pyIsSpace).reverse

/-- Python `str.strip()`. -/
def pyStrip (s : Str) : Str := pyStripTrail (pyStripLead s)

/-- Boolean prefix test on lists (decidable, executable). -/
def listStarts {α : Type} [DecidableEq α] : List α → List α → Bool
  | [], _ => true
  | _ :: _, [] => false
  | p :: ps, s :: ss => if p = s then listStarts ps ss else false

/-- Prefix test on character lists. -/
def strStarts (p s : Str) : Bool := listStarts p s

/-- Boolean contiguous-substring test. -/
def containsSub (pat : Str) : Str → Bool
  | [] => strStarts pat []
  | c :: cs => strStarts pat (c :: cs) || containsSub pat cs

/-- Split a string at the first occurrence of `c`; `none` when `c` is absent.
Models the deterministic effect of a greedy `[^c]+` regex group followed by
the literal `c`, and of Python `str.split(c, 1)`. -/
def splitFirst (c : Char) : Str → Option (Str × Str)
  | [] => none
  | x :: xs =>
    if x = c then some ([], xs)
    else (splitFirst c xs).map fun p => (x :: p.1, p.2)

/-- Python `str.split(sep)` for a one-character separator: keeps empty
segments, and the empty string yields one empty segment. -/
def splitOn (c : Char) : Str → List Str
  | [] => [[]]
  | x :: xs =>
    if x = c then [] :: splitOn c xs
    else
      match splitOn c xs with
      | [] => [[x]]
      | s :: ss => (x :: s) :: ss

/-- Join segments with a separator string (inverse of splitting). -/
def joinWith (sep : Str) : List Str → Str
  | [] => []
  | [s] => s
  | s :: rest => s ++ sep ++ joinWith sep rest

/-- Python dict assignment `d[k] = v` on an insertion-ordered association
list: an existing key keeps its position and gets the new value, a new key
is appended. -/
def dictInsert {α β : Type} [DecidableEq α] : List (α × β) → α → β → List (α × β)
  | [], k, v => [(k, v)]
  | (k', v') :: rest, k, v =>
    if k' = k then (k', v) :: rest else (k', v') :: dictInsert rest k v

/-- Association-list lookup (Python `d[k]` / `d.get(k)`). -/
def alookup {α β : Type} [DecidableEq α] : List (α × β) → α → Option β
  | [], _ => none
  | (k', v') :: rest, k => if k' = k then some v' else alookup rest k

/-! ## Identifier parser (src/aws/resolver.py)

The identifier pattern is the regex
`^aws:(?:role=([^:]+):)?([^:]+):(.+)$` compiled without flags, so `.` does
not match a newline and `$` matches at the end of the string or just before
a trailing newline.  The functions below reproduce the backtracking
behaviour of this particular pattern: each `[^x]+` group followed by the
literal `x` can only end at the first occurrence of `x`, and the optional
role group is tried before the roleless alternative. -/

/-- The final `(.+)$` group of the identifier pattern applied to the whole
remaining text `u`: matches all of `u` when `u` is non-empty and
newline-free, or all but a single trailing newline. -/
def dotPlusDollar (u : Str) : Option Str :=
  if u ≠ [] ∧ u.all (· ≠ '\n') then some u
  else
    match u.getLast? with
    | some c =>
      if c = '\n' ∧ u.dropLast ≠ [] ∧ u.dropLast.all (· ≠ '\n') then
        some u.dropLast
      else none
    | none => none

/-- The `([^:]+):(.+)$` tail of the identifier pattern: resource type up to
the first colon, query text after it. -/
def tryTypeQuery (t : Str) : Option (Str × Str) :=
  match splitFirst ':' t with
  | none => none
  | some (ty, u) =>
    if ty = [] then none
    else (dotPlusDollar u).map fun q => (ty, q)

/-- The optional `(?:role=([^:]+):)?` group followed by the pattern tail,
tried on the text after the `aws:` prefix. -/
def tryRoleBranch (rest : Str) : Option (Option Str × Str × Str) :=
  if strStarts ('r' :: 'o' :: 'l' :: 'e' :: '=' :: []) rest then
    match splitFirst ':' (rest.drop 5) with
    | none => none
    | some (r, t) =>
      if r = [] then none
      else (tryTypeQuery t).map fun p => (some r, p.1, p.2)
  else none

/-- `identifier_pattern.match(identifier)`: the groups
`(role_name, resource_type, query_str)` of a successful match, `none`
otherwise. -/
def matchIdentifier (s : Str) : Option (Option Str × Str × Str) :=
  if strStarts ('a' :: 'w' :: 's' :: ':' :: []) s then
    match tryRoleBranch (s.drop 4) with
    | some out => some out
    | none => (tryTypeQuery (s.drop 4)).map fun p => (none, p.1, p.2)
  else none

/-- The `ValueError`s raised by `parse_resource_identifier`. -/
inductive ParseErr : Type
  | invalidFormat (ident : Str)
  | missingEq (param : Str)
  | emptyKey
  | emptyValue (key : Str)
deriving DecidableEq, Repr

/-- The query-parameter loop of `parse_resource_identifier`: strip each
comma-separated segment, skip the empty ones, require a `=`, strip key and
value, reject empty keys or values, and store with dict update semantics. -/
def foldParams : List Str → List (Str × Str) → Except ParseErr (List (Str × Str))
  | [], acc => .ok acc
  | p :: ps, acc =>
    if pyStrip p = [] then foldParams ps acc
    else if ¬ (pyStrip p).contains '=' then .error (.missingEq (pyStrip p))
    else
      match splitFirst '=' (pyStrip p) with
      | none => .error (.missingEq (pyStrip p))
      | some (k, v) =>
        if pyStrip k = [] then .error .emptyKey
        else if pyStrip v = [] then .error (.emptyValue (pyStrip k))
        else foldParams ps (dictInsert acc (pyStrip k) (pyStrip v))

/-- `AWSResourceResolver.parse_resource_identifier`: returns
`(account_id, role_name, resource_type, query_params)`; `account_id` is
always `None`. -/
def parseResourceIdentifier (identifier : Str) :
    Except ParseErr (Option Str × Option Str × Str × List (Str × Str)) :=
  match matchIdentifier identifier with
  | none => .error (.invalidFormat identifier)
  | some (roleName, resourceType, queryStr) =>
    if queryStr = [] then .ok (none, roleName, resourceType, [])
    else
      match foldParams (splitOn ',' queryStr) [] with
      | .error e => .error e
      | .ok m => .ok (none, roleName, resourceType, m)

/-! ## Session manager (src/aws/session.py) -/

/-- Python truthiness of an optional string: `None` and the empty string
are falsy. -/
def optTruthy : Option Str → Bool
  | none => false
  | some s => s ≠ []

/-- Python `str.isdigit()` restricted to ASCII digits: non-empty and all
digits. -/
def pyIsDigit (s : Str) : Bool := s ≠ [] && s.all Char.isDigit

/-- `AWSSessionManager.resolve_account_id`: numeric identifiers pass
through, aliases go through `account_mappings` with identity fallback. -/
def resolveAccountId (accountMappings : List (Str × Str)) (a : Str) : Str :=
  if pyIsDigit a then a
  else ((alookup accountMappings a).getD a)

/-- The string `"default"`. -/
def defaultKey : Str := 'd' :: 'e' :: 'f' :: 'a' :: 'u' :: 'l' :: 't' :: []

/-- `x or 'default'` on an optional string (Python truthiness). -/
def orDefault (x : Option Str) : Str :=
  match x with
  | some s => if s = [] then defaultKey else s
  | none => defaultKey

/-- The `if account_id: account_id = resolve_account_id(account_id)` step
of `get_session` (a falsy account id is left as is). -/
def resolvedAccount (accountMappings : List (Str × Str)) :
    Option Str → Option Str
  | some a =>
    if a ≠ [] then some (resolveAccountId accountMappings a) else some a
  | none => none

/-- The session cache key
`f"{account_id or 'default'}:{role_name or 'default'}"`, computed after
alias resolution exactly as in `get_session`. -/
def sessionKey (accountMappings : List (Str × Str))
    (accountId roleName : Option Str) : Str :=
  orDefault (resolvedAccount accountMappings accountId) ++
    ':' :: orDefault roleName

/-- Mutable state of `AWSSessionManager`: the `sessions` dict (session
handles are opaque numbers) together with a count of completed
credential-acquisition flows (calls of `_create_session`). -/
structure SessMgrSt : Type where
  sessions : List (Str × Nat)
  creations : Nat
deriving DecidableEq, Repr

/-- `AWSSessionManager.get_session`, parameterised by `create`, the
`_create_session` flow (boto3 / STS, an external collaborator) which may
raise; `create` receives the resolved account id, the role name and the
index of the creation flow. -/
def getSession (create : Option Str → Option Str → Nat → Except Unit Nat)
    (accountMappings : List (Str × Str)) (st : SessMgrSt)
    (accountId roleName : Option Str) : Except Unit (Nat × SessMgrSt) :=
  let accountId' := resolvedAccount accountMappings accountId
  let key := sessionKey accountMappings accountId roleName
  match alookup st.sessions key with
  | some h => .ok (h, st)
  | none =>
    match create accountId' roleName st.creations with
    | .error e => .error e
    | .ok h =>
      .ok (h, { sessions := dictInsert st.sessions key h,
                creations := st.creations + 1 })

/-- `AWSSessionManager._get_role_arn`: literal ARNs pass through, then the
configured alias (a falsy mapping value counts as absent, per
`if not role_arn`), then synthesis from the account id; raises when the
account id is falsy. -/
def getRoleArn (roleMappings : List (Str × Str))
    (accountId : Option Str) (roleName : Str) : Except Unit Str :=
  if strStarts "arn:aws:iam::".toList roleName then .ok roleName
  else
    let fromConfig := alookup roleMappings roleName
    let fallback : Except Unit Str :=
      match accountId with
      | some a =>
        if a ≠ [] then
          .ok ("arn:aws:iam::".toList ++ a ++ ":role/".toList ++ roleName)
        else .error ()
      | none => .error ()
    match fromConfig with
    | some arn => if arn ≠ [] then .ok arn else fallback
    | none => fallback

/-! ## Resource handler registry (src/aws/resolver.py) -/

/-- Keys of the `resource_handlers` dict of `AWSResourceResolver`. -/
def resourceHandlers : List Str :=
  ["rds".toList, "elasticache".toList, "alb".toList, "ecr".toList,
   "secret".toList]

/-- Exceptions raisable by the session layer and the resource handlers
(boto3 `ClientError` with its error code, or any other exception). -/
inductive AwsErr : Type
  | clientError (code : Str)
  | generic
deriving DecidableEq, Repr

/-- `AWSResourceResolver.resolve_aws_resource`, parameterised by the
session layer (`get_session`) and the handler capability
(`handler.resolve`), both external effects that may raise.  An unsupported
resource type raises a `ValueError` (the outer `Except Unit` error) before
the `try` block; inside the `try` block every `ClientError` and every other
exception is caught and resolved to `None`. -/
def resolveAwsResource
    (getSess : Option Str → Option Str → Except AwsErr Nat)
    (hresolve : Str → Nat → List (Str × Str) → Except AwsErr (Option Str))
    (resourceType : Str) (query : List (Str × Str))
    (accountId roleName : Option Str) : Except Unit (Option Str) :=
  if resourceType ∈ resourceHandlers then
    match getSess accountId roleName with
    | .error _ => .ok none
    | .ok session =>
      match hresolve resourceType session query with
      | .error _ => .ok none
      | .ok v => .ok v
  else .error ()

/-! ## Caching layer (src/aws/cache.py) -/

/-- Python `str()` of an optional string: `None` prints as `"None"`. -/
def pyShowOpt : Option Str → Str
  | none => 'N' :: 'o' :: 'n' :: 'e' :: []
  | some s => s

/-- Python `str()` of an insertion-ordered dict of plain strings that need
no escaping: `\x7b'k': 'v', ...\x7d`. -/
def pyShowDict (q : List (Str × Str)) : Str :=
  let quote : Char := Char.ofNat 39
  let items := q.map fun kv =>
    quote :: kv.1 ++ quote :: ':' :: ' ' :: quote :: kv.2 ++ [quote]
  Char.ofNat 123 :: joinWith (',' :: ' ' :: []) items ++ [Char.ofNat 125]

/-- The cache key
`f"{account_id}:{role_name}:{resource_type}:{str(query)}"` of
`CachedResourceResolver.resolve_aws_resource`. -/
def cacheKey (accountId roleName : Option Str) (resourceType : Str)
    (query : List (Str × Str)) : Str :=
  pyShowOpt accountId ++ ':' :: pyShowOpt roleName ++ ':' :: resourceType
    ++ ':' :: pyShowDict query

/-- `CachedResourceResolver.resolve_aws_resource`.  `base` is the value the
wrapped `AWSResourceResolver` would return for this invocation.  Returns
the result, the new cache, and whether the base resolver was invoked. -/
def cachedResolve (base : Option Str) (cache : List (Str × Str))
    (accountId roleName : Option Str) (resourceType : Str)
    (query : List (Str × Str)) : Option Str × List (Str × Str) × Bool :=
  let key := cacheKey accountId roleName resourceType query
  match alookup cache key with
  | some v => (some v, cache, false)
  | none =>
    match base with
    | some v => (some v, dictInsert cache key v, true)
    | none => (none, cache, true)

/-! ## Validation gate (src/utils/validation.py) -/

/-- Values produced by the external YAML library. -/
inductive Yaml : Type
  | nullV
  | boolV (b : Bool)
  | intV (n : Int)
  | strV (s : Str)
  | listV (xs : List Yaml)
  | mapV (kvs : List (Str × Yaml))

/-- Python truthiness of a loaded YAML value. -/
def Yaml.truthy : Yaml → Bool
  | .nullV => false
  | .boolV b => b
  | .intV n => n ≠ 0
  | .strV s => s ≠ []
  | .listV xs => !xs.isEmpty
  | .mapV kvs => !kvs.isEmpty

/-- `isinstance(·, dict)`. -/
def Yaml.isMap : Yaml → Bool
  | .mapV _ => true
  | _ => false

/-- The entries of a mapping value (empty for non-mappings). -/
def Yaml.entries : Yaml → List (Str × Yaml)
  | .mapV kvs => kvs
  | _ => []

/-- The validation messages produced by `validate_manifest` and
`_validate_kubernetes_manifest`. -/
inductive VErr : Type
  | invalidYamlSyntax
  | emptyDoc
  | topNotMapping
  | missingRequired (missing : List Str)
  | metaNotMapping
  | metaNameRequired
deriving DecidableEq, Repr

/-- `TemplateValidator._validate_kubernetes_manifest` on a top-level
mapping: required fields `apiVersion`, `kind`, `metadata`, then the
`metadata` structure checks. -/
def validateKubernetesManifest (content : List (Str × Yaml)) : List VErr :=
  let required := ["apiVersion".toList, "kind".toList, "metadata".toList]
  let missing := required.filter fun f => (alookup content f).isNone
  let fieldErrs := if missing ≠ [] then [VErr.missingRequired missing] else []
  let metaErrs :=
    match alookup content "metadata".toList with
    | some m =>
      if ¬ m.isMap then [VErr.metaNotMapping]
      else if (alookup m.entries "name".toList).isNone then
        [VErr.metaNameRequired]
      else []
    | none => []
  fieldErrs ++ metaErrs

/-- Runtime exceptions of `validate_manifest` that escape the function: the
`UnboundLocalError` raised at `if yaml_content and ...` when the preceding
`try` block failed before binding `yaml_content`. -/
inductive PyRuntimeErr : Type
  | unboundLocal
deriving DecidableEq, Repr

/-- `TemplateValidator.validate_manifest`, parameterised by
`yaml.safe_load` (external library; an error models a raised
`yaml.YAMLError`).  When `safe_load` raises, the `except` clause appends an
invalid-syntax message, but the subsequent read of `yaml_content` — a local
variable the failed `try` block never bound — raises `UnboundLocalError`,
so the collected list is lost. -/
def validateManifest (safeLoad : Str → Except Unit Yaml) (content : Str) :
    Except PyRuntimeErr (List VErr) :=
  match safeLoad content with
  | .ok y =>
    let structErrs :=
      if ¬ y.truthy then [VErr.emptyDoc]
      else if ¬ y.isMap then [VErr.topNotMapping]
      else []
    if y.truthy ∧ y.isMap then .ok (structErrs ++ validateKubernetesManifest y.entries)
    else .ok structErrs
  | .error _ => .error .unboundLocal

/-! ## Backup / rollback manager (src/utils/rollback.py)

The file system is modelled as an association list from paths to file
contents, a path being its list of components; `os.walk` enumerates the
files below a directory, so the walk of `backup_existing_manifests`
corresponds to filtering the file-system entries below the target
directory.  Writes always succeed in this model. -/

/-- A file-system path, as its list of components. -/
abbrev FPath := List Str

/-- A file system: an association list from paths to contents. -/
abbrev FS := List (FPath × Str)

/-- The backup marker directory name `.kustomize-backup`. -/
def backupMarker : Str := ".kustomize-backup".toList

/-- Suffix test on character lists (Python `str.endswith`). -/
def strEnds (p s : Str) : Bool := strStarts p.reverse s.reverse

/-- The walk filter of `backup_existing_manifests`: a `.yaml`/`.yml` file
whose name does not start with a dot. -/
def isManifestName (name : Str) : Bool :=
  (strEnds ".yaml".toList name || strEnds ".yml".toList name) &&
  ¬ strStarts ['.'] name

/-- `'.kustomize-backup' in root`: the marker contains no path separator,
so it occurs in the joined directory path exactly when it occurs inside
one of the directory components. -/
def inBackupRoot (dirname : FPath) : Bool :=
  dirname.any fun comp => containsSub backupMarker comp

/-- A file visited by the walk of `backup_existing_manifests(directory)`:
below `directory`, not inside a `.kustomize-backup` directory, and a
manifest file name. -/
def trackedFile (dir : FPath) (p : FPath) : Bool :=
  listStarts dir p && p.drop dir.length ≠ [] &&
  ¬ inBackupRoot p.dropLast && isManifestName (p.getLast?.getD [])

/-- Mutable state of `RollbackManager`: `backup_dir` and the in-memory
`current_backup` map. -/
structure RollbackSt : Type where
  backupDir : Option FPath
  currentBackup : Option (List (FPath × Str))

/-- `RollbackManager.backup_existing_manifests(directory)`: record every
tracked file in the in-memory map and copy it on disk below
`<directory>/.kustomize-backup/<timestamp>/`, mirroring relative paths. -/
def backupExistingManifests (ts : Str) (dir : FPath) (fs : FS) :
    RollbackSt × FS :=
  let bdir := dir ++ [backupMarker, ts]
  let walked := fs.filter fun pc => trackedFile dir pc.1
  let fs' := walked.foldl
    (fun acc pc => dictInsert acc (bdir ++ pc.1.drop dir.length) pc.2) fs
  ({ backupDir := some bdir, currentBackup := some walked }, fs')

/-- `RollbackManager.restore_manifests`: `if not self.current_backup`
(`None` or an empty dict) does nothing; otherwise every snapshot entry is
rewritten with its original content. -/
def restoreManifests (st : RollbackSt) (fs : FS) : FS :=
  match st.currentBackup with
  | none => fs
  | some mem =>
    if mem = [] then fs
    else mem.foldl (fun acc pc => dictInsert acc pc.1 pc.2) fs

/-! ## Template substitution engine (src/core/wrapper.py)

`process_variables` rewrites every occurrence of the compiled pattern
`\x7b\x7b\s*(.+?)\s*\x7d\x7d` via `re.sub` with the local function
`replace_variable`.  The matcher below reproduces the backtracking order of
this pattern: the leading whitespace run is greedy, the captured group is
lazy and cannot cross a newline, and the trailing whitespace run followed
by the closing braces is deterministic. -/

/-- The opening brace character. -/
def lbr : Char := Char.ofNat 123

/-- The closing brace character. -/
def rbr : Char := Char.ofNat 125

/-- Regex `\s` (ASCII range, same set as `pyIsSpace`). -/
def reIsSpace (c : Char) : Bool := pyIsSpace c

/-- Length of the leading whitespace run. -/
def wsRunLen (s : Str) : Nat := (s.takeWhile reIsSpace).length

/-- The `\s*\x7d\x7d` tail of the pattern: consume the whitespace run, then
require the two closing braces; returns the text after the match. -/
def matchTail (u : Str) : Option Str :=
  let u' := u.drop (wsRunLen u)
  if strStarts [rbr, rbr] u' then some (u'.drop 2) else none

/-- The lazy `(.+?)` group followed by the pattern tail: the shortest
non-empty newline-free prefix after which `matchTail` succeeds, together
with the text after the whole match. -/
def lazyGroup : Str → Option (Str × Str)
  | [] => none
  | x :: xs =>
    if x = '\n' then none
    else
      match matchTail xs with
      | some post => some ([x], post)
      | none => (lazyGroup xs).map fun p => (x :: p.1, p.2)

/-- The greedy leading `\s*`: try the longest whitespace run first, then
backtrack to shorter runs. -/
def tryLead (t : Str) : Nat → Option (Str × Str)
  | 0 => lazyGroup t
  | a + 1 =>
    match lazyGroup (t.drop (a + 1)) with
    | some out => some out
    | none => tryLead t a

/-- Match the pattern at a position starting with the two opening braces;
returns `(whole match text, captured group, text after the match)`. -/
def matchBraceAt (s : Str) : Option (Str × Str × Str) :=
  if strStarts [lbr, lbr] s then
    match tryLead (s.drop 2) (wsRunLen (s.drop 2)) with
    | some (inner, post) =>
      some (lbr :: lbr :: (s.drop 2).take ((s.drop 2).length - post.length),
        inner, post)
    | none => none
  else none

/-- The leftmost match of the pattern in `s`:
`(text before, whole match, captured group, text after)`. -/
def findMatch : Str → Option (Str × Str × Str × Str)
  | [] => none
  | c :: cs =>
    match matchBraceAt (c :: cs) with
    | some (whole, inner, post) => some ([], whole, inner, post)
    | none =>
      (findMatch cs).map fun r => (c :: r.1, r.2.1, r.2.2.1, r.2.2.2)

/-- Exceptions that escape `process_variables`: the `ValueError`s of
`parse_resource_identifier` and the `ValueError` of
`resolve_aws_resource` for an unsupported resource type. -/
inductive SubErr : Type
  | parseFail (e : ParseErr)
  | unsupported (resourceType : Str)
deriving DecidableEq, Repr

/-- `result or match.group(0)`: a falsy resolution result (`None` or the
empty string) falls back to the whole matched placeholder text. -/
def pyOrStr (v : Option Str) (whole : Str) : Str :=
  match v with
  | some s => if s = [] then whole else s
  | none => whole

/-- The local `replace_variable` of `KustomizeWrapper.process_variables`,
with the resolver pipeline of `AWSResourceResolver` (the `use_caching=False`
configuration; an initially empty cache behaves identically).  `whole` is
`match.group(0)`, `inner` is `match.group(1)`. -/
def replaceVariable (getSess : Option Str → Option Str → Except AwsErr Nat)
    (hresolve : Str → Nat → List (Str × Str) → Except AwsErr (Option Str))
    (vars : List (Str × Str)) (whole inner : Str) : Except SubErr Str :=
  if strStarts ('a' :: 'w' :: 's' :: ':' :: []) inner then
    match parseResourceIdentifier inner with
    | .error e => .error (.parseFail e)
    | .ok (accountId, roleName, resourceType, query) =>
      match resolveAwsResource getSess hresolve resourceType query
          accountId roleName with
      | .error _ => .error (.unsupported resourceType)
      | .ok v => .ok (pyOrStr v whole)
  else .ok ((alookup vars inner).getD whole)

/-- `re.sub` of the variable pattern: repeatedly replace the leftmost
match and continue after it; a raise from the replacement function aborts
the whole substitution.  The fuel bounds the number of matches (each match
consumes at least four characters, so `length + 1` always suffices). -/
def subAll (getSess : Option Str → Option Str → Except AwsErr Nat)
    (hresolve : Str → Nat → List (Str × Str) → Except AwsErr (Option Str))
    (vars : List (Str × Str)) : Nat → Str → Except SubErr Str
  | 0, s => .ok s
  | fuel + 1, s =>
    match findMatch s with
    | none => .ok s
    | some (pre, whole, inner, post) =>
      match replaceVariable getSess hresolve vars whole inner with
      | .error e => .error e
      | .ok r =>
        match subAll getSess hresolve vars fuel post with
        | .error e => .error e
        | .ok rest => .ok (pre ++ r ++ rest)

/-- `KustomizeWrapper.process_variables`. -/
def processVariables (getSess : Option Str → Option Str → Except AwsErr Nat)
    (hresolve : Str → Nat → List (Str × Str) → Except AwsErr (Option Str))
    (vars : List (Str × Str)) (content : Str) : Except SubErr Str :=
  subAll getSess hresolve vars (content.length + 1) content

/-- A trivial session oracle (used for closed evaluations). -/
def sessOk : Option Str → Option Str → Except AwsErr Nat := fun _ _ => .ok 0

/-- A trivial handler oracle that resolves nothing. -/
def hresNone : Str → Nat → List (Str × Str) → Except AwsErr (Option Str) :=
  fun _ _ _ => .ok none

/-- The template text `\x7b\x7b s \x7d\x7d`: a placeholder with single
spaces around the inner text. -/
def braced (s : Str) : Str := lbr :: lbr :: ' ' :: (s ++ ' ' :: rbr :: rbr :: [])

/-! ## Constructors for well-formed identifiers (used to state the parsing
round-trip) -/

/-- The query text `k1=v1,k2=v2,...` of an identifier. -/
def mkQuery (pairs : List (Str × Str)) : Str :=
  joinWith [','] (pairs.map fun kv => kv.1 ++ '=' :: kv.2)

/-- A well-formed identifier
`aws:[role=<r>:]<resourceType>:<k>=<v>[,<k>=<v>...]` of the documented
grammar. -/
def mkIdent (role : Option Str) (ty : Str) (pairs : List (Str × Str)) : Str :=
  ('a' :: 'w' :: 's' :: ':' :: []) ++
    (match role with
     | some r => ('r' :: 'o' :: 'l' :: 'e' :: '=' :: []) ++ r ++ [':']
     | none => []) ++
    ty ++ ':' :: mkQuery pairs

example :
    parseResourceIdentifier "aws:rds:name=test".toList =
      .ok (none, none, "rds".toList, [("name".toList, "test".toList)]) := by
  decide

example :
    parseResourceIdentifier "aws:role=myrole:rds:name=test".toList =
      .ok (none, some "myrole".toList, "rds".toList,
        [("name".toList, "test".toList)]) := by
  decide

example :
    parseResourceIdentifier "invalid:format".toList =
      .error (.invalidFormat "invalid:format".toList) := by decide

example :
    parseResourceIdentifier "aws:rds:name=".toList =
      .error (.emptyValue "name".toList) := by decide

example :
    parseResourceIdentifier "aws:rds:".toList =
      .error (.invalidFormat "aws:rds:".toList) := by decide

example :
    parseResourceIdentifier "aws:rds:name=a,".toList =
      .ok (none, none, "rds".toList, [("name".toList, "a".toList)]) := by
  decide

example :
    processVariables sessOk hresNone []
      ("image: ".toList ++ braced "aws:unknown:name=x".toList ++ " end".toList) =
      .error (.unsupported "unknown".toList) := by decide

example :
    processVariables sessOk hresNone [("name".toList, "world".toList)]
      ("hello ".toList ++ braced "name".toList ++ "!".toList) =
      .ok "hello world!".toList := by decide

example :
    processVariables sessOk hresNone []
      ("hello ".toList ++ braced "missing".toList ++ "!".toList) =
      .ok ("hello ".toList ++ braced "missing".toList ++ "!".toList) := by
  decide

/-! ## Helper lemmas on association lists -/

theorem alookup_dictInsert_self {α β : Type} [DecidableEq α]
    (m : List (α × β)) (k : α) (v : β) :
    alookup (dictInsert m k v) k = some v := by
  induction m with
  | nil => simp [dictInsert, alookup]
  | cons kv rest ih =>
    obtain ⟨k', v'⟩ := kv
    by_cases h : k' = k
    · simp [dictInsert, alookup, h]
    · simp [dictInsert, alookup, h, ih]

theorem alookup_dictInsert_ne {α β : Type} [DecidableEq α]
    (m : List (α × β)) (k k' : α) (v : β) (h : k' ≠ k) :
    alookup (dictInsert m k v) k' = alookup m k' := by
  induction m with
  | nil => simp [dictInsert, alookup, Ne.symm h]
  | cons kv rest ih =>
    obtain ⟨k0, v0⟩ := kv
    by_cases h0 : k0 = k
    · subst h0
      simp [dictInsert, alookup, Ne.symm h]
    · simp [dictInsert, alookup, h0, ih]

theorem alookup_mem {α β : Type} [DecidableEq α]
    (m : List (α × β)) (k : α) (v : β) (h : alookup m k = some v) :
    (k, v) ∈ m := by
  induction m with
  | nil => simp [alookup] at h
  | cons kv rest ih =>
    obtain ⟨k0, v0⟩ := kv
    by_cases h0 : k0 = k
    · subst h0
      simp [alookup] at h
      simp [h]
    · simp [alookup, h0] at h
      exact List.mem_cons_of_mem _ (ih h)

theorem dictInsert_of_alookup {α β : Type} [DecidableEq α]
    (m : List (α × β)) (k : α) (v : β) (h : alookup m k = some v) :
    dictInsert m k v = m := by
  induction m with
  | nil => simp [alookup] at h
  | cons kv rest ih =>
    obtain ⟨k0, v0⟩ := kv
    by_cases h0 : k0 = k
    · subst h0
      simp [alookup] at h
      simp [dictInsert, h]
    · simp [alookup, h0] at h
      simp [dictInsert, h0, ih h]

/-- Looking up after a `dictInsert`-fold: the last inserted binding for the
key wins; absent that, the original list answers. -/
theorem alookup_foldl_dictInsert {α β γ : Type} [DecidableEq α]
    (key : γ → α) (val : γ → β) (l : List γ) (fs : List (α × β)) (K : α) :
    alookup (l.foldl (fun acc x => dictInsert acc (key x) (val x)) fs) K =
      ((l.reverse.find? fun x => decide (key x = K)).elim (alookup fs K)
        fun x => some (val x)) := by
  induction l generalizing fs with
  | nil => simp
  | cons x xs ih =>
    simp only [List.foldl_cons, List.reverse_cons, ih]
    rw [List.find?_append]
    cases hfind : xs.reverse.find? fun y => decide (key y = K) with
    | some y => simp
    | none =>
      simp only [Option.none_orElse, List.find?]
      by_cases hk : key x = K
      · subst hk
        simp [alookup_dictInsert_self]
      · simp [hk, alookup_dictInsert_ne _ _ _ _ (fun hc => hk hc.symm)]

theorem foldl_dictInsert_id {α β : Type} [DecidableEq α]
    (l : List (α × β)) (fs : List (α × β))
    (h : ∀ x ∈ l, alookup fs x.1 = some x.2) :
    l.foldl (fun acc x => dictInsert acc x.1 x.2) fs = fs := by
  induction l with
  | nil => simp
  | cons x xs ih =>
    have hx := h x (List.mem_cons_self x xs)
    simp only [List.foldl_cons, dictInsert_of_alookup _ _ _ hx]
    exact ih fun y hy => h y (List.mem_cons_of_mem x hy)

/-- In a list with distinct keys, `find?` by the key of a member returns
exactly that member. -/
theorem find?_key_eq {α γ : Type} [DecidableEq α]
    (key : γ → α) (l : List γ) (x0 : γ)
    (hn : (l.map key).Nodup) (hm : x0 ∈ l) :
    (l.find? fun x => decide (key x = key x0)) = some x0 := by
  induction l with
  | nil => simp at hm
  | cons y ys ih =>
    simp only [List.map_cons, List.nodup_cons] at hn
    rcases List.mem_cons.mp hm with h0 | h0
    · subst h0
      simp [List.find?]
    · have hne : key y ≠ key x0 := by
        intro hc
        exact hn.1 (hc ▸ List.mem_map_of_mem key h0)
      simp [List.find?, hne, ih hn.2 h0]

theorem mem_of_dropWhile {α : Type} (p : α → Bool) (l : List α) (x : α)
    (h : x ∈ l.dropWhile p) : x ∈ l := by
  induction l with
  | nil => simp [List.dropWhile] at h
  | cons y ys ih =>
    rw [List.dropWhile_cons] at h
    by_cases hy : p y = true
    · rw [if_pos hy] at h
      exact List.mem_cons_of_mem _ (ih h)
    · rw [if_neg hy] at h
      exact h

theorem listStarts_append {α : Type} [DecidableEq α] (p s : List α) :
    listStarts p (p ++ s) = true := by
  induction p with
  | nil => simp [listStarts]
  | cons c cs ih => simp [listStarts, ih]

theorem listStarts_self {α : Type} [DecidableEq α] (p : List α) :
    listStarts p p = true := by
  have h := listStarts_append p []
  rwa [List.append_nil] at h

theorem listStarts_prefix_drop {α : Type} [DecidableEq α] (d : List α) :
    ∀ q : List α, listStarts d q = true → d ++ q.drop d.length = q := by
  induction d with
  | nil => intro q _; simp
  | cons c cs ih =>
    intro q hq
    cases q with
    | nil => simp [listStarts] at hq
    | cons x xs =>
      rw [listStarts] at hq
      by_cases hcx : c = x
      · subst hcx
        rw [if_pos rfl] at hq
        simpa using ih xs hq
      · rw [if_neg hcx] at hq
        exact absurd hq (by simp)

theorem strStarts_append (p s : Str) : strStarts p (p ++ s) = true :=
  listStarts_append p s

theorem containsSub_self (s : Str) : containsSub s s = true := by
  cases s with
  | nil => simp [containsSub, strStarts, listStarts]
  | cons c cs => simp [containsSub, strStarts, listStarts_self]

/-! ## Claim theorems -/

/-- C2: two sequential cached resolutions with identical
`(resource_type, query, account_id, role_name)` arguments invoke the base
resolver exactly once when the first returned a non-null value (the first
call delegates, the second is a pure cache hit); a null result is never
stored, so the next identical lookup delegates to the base resolver
again. -/
theorem cache_null_never_stored_hit_no_delegate
    (st : List (Str × Str)) (a r : Option Str) (ty : Str)
    (q : List (Str × Str)) (v : Str)
    (hmiss : alookup st (cacheKey a r ty q) = none) :
    cachedResolve (some v) st a r ty q =
      (some v, dictInsert st (cacheKey a r ty q) v, true) ∧
    (∀ base2, cachedResolve base2 (dictInsert st (cacheKey a r ty q) v)
      a r ty q = (some v, dictInsert st (cacheKey a r ty q) v, false)) ∧
    cachedResolve none st a r ty q = (none, st, true) ∧
    (∀ base2, (cachedResolve base2 st a r ty q).2.2 = true) := by
  refine ⟨?_, ?_, ?_, ?_⟩
  · simp [cachedResolve, hmiss]
  · intro base2
    simp [cachedResolve, alookup_dictInsert_self]
  · simp [cachedResolve, hmiss]
  · intro base2
    cases base2 <;> simp [cachedResolve, hmiss]

theorem cache_null_never_stored_hit_no_delegate_witness :
    cachedResolve (some "X".toList) [] none none "rds".toList
        [("name".toList, "a".toList)] =
      (some "X".toList,
       [(cacheKey none none "rds".toList [("name".toList, "a".toList)],
         "X".toList)], true) ∧
    cachedResolve none
        [(cacheKey none none "rds".toList [("name".toList, "a".toList)],
          "X".toList)]
        none none "rds".toList [("name".toList, "a".toList)] =
      (some "X".toList,
       [(cacheKey none none "rds".toList [("name".toList, "a".toList)],
         "X".toList)], false) := by
  have h := cache_null_never_stored_hit_no_delegate [] none none
    "rds".toList [("name".toList, "a".toList)] "X".toList (by decide)
  exact ⟨h.1, h.2.1 none⟩

/-- C3: a second `get_session` call whose arguments map to the same
`accountId_or_default:roleName_or_default` key returns the handle cached by
the first successful call, without running the credential-acquisition flow
again (the whole manager state, including the creation counter, is
unchanged). -/
theorem session_memoized (create : Option Str → Option Str → Nat → Except Unit Nat)
    (am : List (Str × Str)) (st : SessMgrSt) (a r a' r' : Option Str)
    (h : Nat) (st' : SessMgrSt)
    (h1 : getSession create am st a r = .ok (h, st'))
    (h2 : sessionKey am a' r' = sessionKey am a r) :
    getSession create am st' a' r' = .ok (h, st') := by
  unfold getSession at h1 ⊢
  simp only at h1 ⊢
  rw [h2]
  cases hlook : alookup st.sessions (sessionKey am a r) with
  | some h0 =>
    rw [hlook] at h1
    simp only [Except.ok.injEq, Prod.mk.injEq] at h1
    obtain ⟨hh0, hst⟩ := h1
    subst hh0
    subst hst
    simp [hlook]
  | none =>
    rw [hlook] at h1
    cases hc : create (resolvedAccount am a) r st.creations with
    | error e => rw [hc] at h1; exact absurd h1 (by simp)
    | ok h0 =>
      rw [hc] at h1
      simp only [Except.ok.injEq, Prod.mk.injEq] at h1
      obtain ⟨hh0, hst⟩ := h1
      subst hh0
      subst hst
      simp [alookup_dictInsert_self]

theorem session_memoized_witness :
    getSession (fun _ _ n => .ok n) [] ⟨[], 0⟩ none none =
      .ok (0, ⟨[("default:default".toList, 0)], 1⟩) ∧
    getSession (fun _ _ n => .ok n) [] ⟨[("default:default".toList, 0)], 1⟩
      none none = .ok (0, ⟨[("default:default".toList, 0)], 1⟩) :=
  ⟨by decide,
   session_memoized (fun _ _ n => .ok n) [] ⟨[], 0⟩ none none none none 0
     ⟨[("default:default".toList, 0)], 1⟩ (by decide) rfl⟩

/-- C5: `resolve_aws_resource` raises exactly when the resource type is not
a key of the handler registry; for a supported type, a raise from the
session layer or from the handler is caught and the call returns `None`,
and a handler value is passed through. -/
theorem resolver_raises_iff_unsupported
    (getSess : Option Str → Option Str → Except AwsErr Nat)
    (hresolve : Str → Nat → List (Str × Str) → Except AwsErr (Option Str))
    (ty : Str) (q : List (Str × Str)) (a r : Option Str) :
    ((∃ e, resolveAwsResource getSess hresolve ty q a r = .error e) ↔
      ty ∉ resourceHandlers) ∧
    (∀ e, getSess a r = .error e → ty ∈ resourceHandlers →
      resolveAwsResource getSess hresolve ty q a r = .ok none) ∧
    (∀ s e, getSess a r = .ok s → hresolve ty s q = .error e →
      ty ∈ resourceHandlers →
      resolveAwsResource getSess hresolve ty q a r = .ok none) ∧
    (∀ s v, getSess a r = .ok s → hresolve ty s q = .ok v →
      ty ∈ resourceHandlers →
      resolveAwsResource getSess hresolve ty q a r = .ok v) := by
  refine ⟨⟨?_, ?_⟩, ?_, ?_, ?_⟩
  · rintro ⟨e, he⟩ hty
    rw [resolveAwsResource, if_pos hty] at he
    cases hs : getSess a r with
    | error e0 => simp [hs] at he
    | ok s =>
      cases hh : hresolve ty s q with
      | error e0 => simp [hs, hh] at he
      | ok v => simp [hs, hh] at he
  · intro hty
    exact ⟨(), by simp [resolveAwsResource, if_neg hty]⟩
  · intro e he hty
    simp [resolveAwsResource, if_pos hty, he]
  · intro s e hs hh hty
    simp [resolveAwsResource, if_pos hty, hs, hh]
  · intro s v hs hh hty
    simp [resolveAwsResource, if_pos hty, hs, hh]

theorem resolver_raises_iff_unsupported_witness :
    resolveAwsResource sessOk hresNone "rds".toList [] none none =
      .ok none ∧
    resolveAwsResource sessOk hresNone "unknown".toList [] none none =
      .error () :=
  ⟨(resolver_raises_iff_unsupported sessOk hresNone "rds".toList [] none
      none).2.2.2 0 none rfl rfl (by decide),
   by
    obtain ⟨e, he⟩ := (resolver_raises_iff_unsupported sessOk hresNone
      "unknown".toList [] none none).1.mpr (by decide)
    exact he⟩

/-- C4 counterexample: parsing `aws:rds:` (empty query part) does not
succeed with an empty mapping — the identifier pattern requires a
non-empty query text (`(.+)$`), so it raises an invalid-format error. -/
theorem parse_empty_query_counterexample :
    parseResourceIdentifier "aws:rds:".toList =
      .error (.invalidFormat "aws:rds:".toList) ∧
    parseResourceIdentifier "aws:rds:".toList ≠
      .ok (none, none, "rds".toList, []) := by
  refine ⟨by decide, by decide⟩

/-- C4 (amended): `invalid:format` and `aws:rds:name=` (empty value) are
rejected with format errors, and `aws:rds:` (empty query part) is also
rejected with a format error, because the grammar requires a non-empty
query text after the resource type. -/
theorem parse_rejects_malformed :
    parseResourceIdentifier "invalid:format".toList =
      .error (.invalidFormat "invalid:format".toList) ∧
    parseResourceIdentifier "aws:rds:name=".toList =
      .error (.emptyValue "name".toList) ∧
    parseResourceIdentifier "aws:rds:".toList =
      .error (.invalidFormat "aws:rds:".toList) := by
  refine ⟨by decide, by decide, by decide⟩

/-- C10: the query-parameter loop silently skips comma-separated segments
that are empty after trimming, so a trailing or doubled comma yields the
mapping of the remaining non-empty segments rather than a format error. -/
theorem parse_skips_empty_segments :
    (∀ (p : Str) (ps : List Str) (acc : List (Str × Str)),
      pyStrip p = [] → foldParams (p :: ps) acc = foldParams ps acc) ∧
    parseResourceIdentifier "aws:rds:name=a,".toList =
      .ok (none, none, "rds".toList, [("name".toList, "a".toList)]) ∧
    parseResourceIdentifier "aws:rds:name=a,,attr=b".toList =
      .ok (none, none, "rds".toList,
        [("name".toList, "a".toList), ("attr".toList, "b".toList)]) :=
  ⟨fun p ps acc h => by simp [foldParams, h], by decide, by decide⟩

theorem parse_skips_empty_segments_witness :
    foldParams (" ".toList :: ["name=a".toList]) [] =
      foldParams ["name=a".toList] [] :=
  parse_skips_empty_segments.1 " ".toList ["name=a".toList] [] (by decide)

/-- C6: on content that the YAML library rejects, `validate_manifest` does
not return the collected error list — the `except` clause leaves the local
`yaml_content` unbound and the subsequent `if yaml_content and ...` raises
`UnboundLocalError`, contradicting the documented contract (and the
repository's own test) that validation errors are returned as a list and
never raised. -/
theorem validate_manifest_raises_on_bad_yaml
    (safeLoad : Str → Except Unit Yaml) (content : Str)
    (hbad : safeLoad content = .error ()) :
    validateManifest safeLoad content = .error .unboundLocal := by
  simp [validateManifest, hbad]

theorem validate_manifest_raises_on_bad_yaml_witness :
    validateManifest (fun _ => .error ())
      "invalid: yaml: structure:".toList = .error .unboundLocal :=
  validate_manifest_raises_on_bad_yaml (fun _ => .error ())
    "invalid: yaml: structure:".toList rfl

/-- C8: role-ARN resolution returns a literal ARN verbatim, otherwise the
configured alias, otherwise the ARN synthesized from the account id, and
raises exactly when the account id is unavailable and the role name is
neither a configured alias nor a literal ARN (assuming configured alias
values are non-empty ARN strings). -/
theorem role_arn_resolution (rm : List (Str × Str)) (accountId : Option Str)
    (roleName : Str) (hvals : ∀ kv ∈ rm, kv.2 ≠ ([] : Str)) :
    (strStarts "arn:aws:iam::".toList roleName = true →
      getRoleArn rm accountId roleName = .ok roleName) ∧
    (strStarts "arn:aws:iam::".toList roleName = false →
      ∀ arn, alookup rm roleName = some arn →
        getRoleArn rm accountId roleName = .ok arn) ∧
    (strStarts "arn:aws:iam::".toList roleName = false →
      alookup rm roleName = none → ∀ a, accountId = some a → a ≠ [] →
        getRoleArn rm accountId roleName =
          .ok ("arn:aws:iam::".toList ++ a ++ ":role/".toList ++ roleName)) ∧
    (getRoleArn rm accountId roleName = .error () ↔
      (optTruthy accountId = false ∧
       strStarts "arn:aws:iam::".toList roleName = false ∧
       alookup rm roleName = none)) := by
  refine ⟨?_, ?_, ?_, ?_⟩
  · intro harn
    unfold getRoleArn
    rw [if_pos harn]
  · intro harn arn hcfg
    have hne : arn ≠ [] := hvals (roleName, arn) (alookup_mem _ _ _ hcfg)
    unfold getRoleArn
    rw [if_neg (by simp only [Bool.not_eq_true]; exact harn), hcfg]
    simp only [if_pos hne]
  · intro harn hcfg a ha hne
    subst ha
    unfold getRoleArn
    rw [if_neg (by simp only [Bool.not_eq_true]; exact harn), hcfg]
    simp only [if_pos hne]
  · constructor
    · intro herr
      unfold getRoleArn at herr
      by_cases harn : strStarts "arn:aws:iam::".toList roleName = true
      · rw [if_pos harn] at herr
        exact absurd herr (by simp)
      · rw [if_neg harn] at herr
        cases hcfg : alookup rm roleName with
        | some arn =>
          have hne : arn ≠ [] := hvals (roleName, arn) (alookup_mem _ _ _ hcfg)
          rw [hcfg] at herr
          simp only [if_pos hne] at herr
          exact absurd herr (by simp)
        | none =>
          rw [hcfg] at herr
          refine ⟨?_, by simp at harn; exact harn, rfl⟩
          cases accountId with
          | none => rfl
          | some a =>
            simp only at herr
            by_cases ha : a = []
            · simp [optTruthy, ha]
            · rw [if_pos ha] at herr
              · exact absurd herr (by simp)
    · rintro ⟨htruthy, harn, hcfg⟩
      have harn' : ¬ strStarts "arn:aws:iam::".toList roleName = true := by
        simp only [Bool.not_eq_true]
        exact harn
      unfold getRoleArn
      rw [if_neg harn', hcfg]
      cases accountId with
      | none => rfl
      | some a =>
        have ha : a = [] := by
          by_contra hc
          simp [optTruthy, hc] at htruthy
        subst ha
        simp

/-- C7: after `backup(dir)`, mutating a tracked manifest file, then
`restore()`, the file's content equals its pre-mutation content exactly;
invoking `restore()` again rewrites identical content and leaves the file
system unchanged (idempotence); and the on-disk backup copy below
`<dir>/.kustomize-backup/<timestamp>/` is still present after the
restore. -/
theorem backup_restore_round_trip (ts : Str) (dir p : FPath) (newC c0 : Str)
    (fs : FS) (st1 : RollbackSt) (fs1 : FS)
    (hn : (fs.map Prod.fst).Nodup)
    (htr : trackedFile dir p = true) (hc : alookup fs p = some c0)
    (hbk : backupExistingManifests ts dir fs = (st1, fs1)) :
    alookup (restoreManifests st1 (dictInsert fs1 p newC)) p = some c0 ∧
    restoreManifests st1 (restoreManifests st1 (dictInsert fs1 p newC)) =
      restoreManifests st1 (dictInsert fs1 p newC) ∧
    alookup (restoreManifests st1 (dictInsert fs1 p newC))
      ((dir ++ [backupMarker, ts]) ++ p.drop dir.length) = some c0 := by
  simp only [backupExistingManifests] at hbk
  injection hbk with hst1 hfs1
  subst hst1
  subst hfs1
  have htr' := htr
  simp only [trackedFile, Bool.and_eq_true, decide_eq_true_eq,
    Bool.not_eq_true] at htr'
  obtain ⟨⟨⟨hstart, hrel⟩, hnoback⟩, hname⟩ := htr'
  have hmemfs : (p, c0) ∈ fs := alookup_mem _ _ _ hc
  have hmemw : (p, c0) ∈ fs.filter fun pc => trackedFile dir pc.1 :=
    List.mem_filter.mpr ⟨hmemfs, htr⟩
  have hwne : fs.filter (fun pc => trackedFile dir pc.1) ≠ [] := by
    intro h
    rw [h] at hmemw
    exact absurd hmemw (List.not_mem_nil _)
  have hnw : ((fs.filter fun pc => trackedFile dir pc.1).map Prod.fst).Nodup := by
    have hsub : List.Sublist
        ((fs.filter fun pc => trackedFile dir pc.1).map Prod.fst)
        (fs.map Prod.fst) := (List.filter_sublist _).map _
    exact hn.sublist hsub
  have hnwr : (((fs.filter fun pc => trackedFile dir pc.1).reverse).map
      Prod.fst).Nodup := by
    rw [List.map_reverse]
    exact List.nodup_reverse.mpr hnw
  have hrestore : ∀ X : FS,
      restoreManifests
        ⟨some (dir ++ [backupMarker, ts]),
         some (fs.filter fun pc => trackedFile dir pc.1)⟩ X =
      (fs.filter fun pc => trackedFile dir pc.1).foldl
        (fun acc pc => dictInsert acc pc.1 pc.2) X := by
    intro X
    simp only [restoreManifests]
    rw [if_neg hwne]
  have hfind_p : ((fs.filter fun pc => trackedFile dir pc.1).reverse.find?
      fun x => decide (x.1 = p)) = some (p, c0) := by
    have h := find?_key_eq Prod.fst
      (fs.filter fun pc => trackedFile dir pc.1).reverse (p, c0) hnwr
      (List.mem_reverse.mpr hmemw)
    simpa using h
  have hmarker : inBackupRoot
      (((dir ++ [backupMarker, ts]) ++ p.drop dir.length).dropLast) = true := by
    rw [List.dropLast_append_of_ne_nil _ hrel]
    simp only [inBackupRoot, List.any_eq_true]
    exact ⟨backupMarker, by simp, containsSub_self _⟩
  have hKp : (dir ++ [backupMarker, ts]) ++ p.drop dir.length ≠ p := by
    intro hK
    rw [hK] at hmarker
    rw [hmarker] at hnoback
    exact absurd hnoback (by simp)
  have hxK : ∀ x ∈ (fs.filter fun pc => trackedFile dir pc.1).reverse,
      x.1 ≠ (dir ++ [backupMarker, ts]) ++ p.drop dir.length := by
    intro x hx hxk
    have hxw := List.mem_reverse.mp hx
    have hxt := (List.mem_filter.mp hxw).2
    simp only [trackedFile, Bool.and_eq_true, decide_eq_true_eq,
      Bool.not_eq_true] at hxt
    rw [hxk] at hxt
    rw [hmarker] at hxt
    exact absurd hxt.1.2 (by simp)
  have hfind_none : ((fs.filter fun pc => trackedFile dir pc.1).reverse.find?
      fun x =>
        decide (x.1 = (dir ++ [backupMarker, ts]) ++ p.drop dir.length)) =
      none := by
    rw [List.find?_eq_none]
    intro x hx
    simp only [decide_eq_true_eq]
    exact hxK x hx
  have hnb : (((fs.filter fun pc => trackedFile dir pc.1).reverse).map
      fun pc => (dir ++ [backupMarker, ts]) ++ pc.1.drop dir.length).Nodup := by
    rw [List.map_reverse]
    refine List.nodup_reverse.mpr ?_
    have hmapeq : ((fs.filter fun pc => trackedFile dir pc.1).map
          fun pc => (dir ++ [backupMarker, ts]) ++ pc.1.drop dir.length) =
        (((fs.filter fun pc => trackedFile dir pc.1).map Prod.fst).map
          fun q => (dir ++ [backupMarker, ts]) ++ q.drop dir.length) := by
      rw [List.map_map]
      rfl
    rw [hmapeq]
    refine List.Nodup.map_on ?_ hnw
    intro q hq q' hq' hg
    have hqs : listStarts dir q = true := by
      obtain ⟨x, hxw, hxq⟩ := List.mem_map.mp hq
      have hxt := (List.mem_filter.mp hxw).2
      simp only [trackedFile, Bool.and_eq_true] at hxt
      rw [← hxq]
      exact hxt.1.1.1
    have hqs' : listStarts dir q' = true := by
      obtain ⟨x, hxw, hxq⟩ := List.mem_map.mp hq'
      have hxt := (List.mem_filter.mp hxw).2
      simp only [trackedFile, Bool.and_eq_true] at hxt
      rw [← hxq]
      exact hxt.1.1.1
    have hdrop := List.append_cancel_left hg
    rw [← listStarts_prefix_drop dir q hqs, ← listStarts_prefix_drop dir q' hqs',
      hdrop]
  have hfind_b : ((fs.filter fun pc => trackedFile dir pc.1).reverse.find?
      fun x =>
        decide ((dir ++ [backupMarker, ts]) ++ x.1.drop dir.length =
          (dir ++ [backupMarker, ts]) ++ p.drop dir.length)) =
      some (p, c0) := by
    have h := find?_key_eq
      (fun pc : FPath × Str => (dir ++ [backupMarker, ts]) ++ pc.1.drop dir.length)
      (fs.filter fun pc => trackedFile dir pc.1).reverse (p, c0) hnb
      (List.mem_reverse.mpr hmemw)
    simpa using h
  refine ⟨?_, ?_, ?_⟩
  · rw [hrestore, alookup_foldl_dictInsert Prod.fst Prod.snd, hfind_p]
    rfl
  · rw [hrestore, hrestore]
    apply foldl_dictInsert_id
    intro x hx
    rw [alookup_foldl_dictInsert Prod.fst Prod.snd]
    have hfx := find?_key_eq Prod.fst
      (fs.filter fun pc => trackedFile dir pc.1).reverse x hnwr
      (List.mem_reverse.mpr hx)
    rw [hfx]
    rfl
  · rw [hrestore, alookup_foldl_dictInsert Prod.fst Prod.snd, hfind_none]
    simp only [Option.elim]
    rw [alookup_dictInsert_ne _ _ _ _ hKp]
    rw [alookup_foldl_dictInsert
      (fun pc : FPath × Str => (dir ++ [backupMarker, ts]) ++ pc.1.drop dir.length)
      Prod.snd, hfind_b]
    rfl

theorem backup_restore_round_trip_witness :
    alookup
      (restoreManifests
        (backupExistingManifests "t".toList ["d".toList]
          [(["d".toList, "a.yaml".toList], "x".toList)]).1
        (dictInsert
          (backupExistingManifests "t".toList ["d".toList]
            [(["d".toList, "a.yaml".toList], "x".toList)]).2
          ["d".toList, "a.yaml".toList] "y".toList))
      ["d".toList, "a.yaml".toList] = some "x".toList := by
  have h := backup_restore_round_trip "t".toList ["d".toList]
    ["d".toList, "a.yaml".toList] "y".toList "x".toList
    [(["d".toList, "a.yaml".toList], "x".toList)]
    (backupExistingManifests "t".toList ["d".toList]
      [(["d".toList, "a.yaml".toList], "x".toList)]).1
    (backupExistingManifests "t".toList ["d".toList]
      [(["d".toList, "a.yaml".toList], "x".toList)]).2
    (by decide) (by decide) (by decide) rfl
  exact h.1

theorem role_arn_resolution_witness :
    getRoleArn [("deploy".toList, "arn:aws:iam::111:role/deploy".toList)]
      none "deploy".toList = .ok "arn:aws:iam::111:role/deploy".toList ∧
    getRoleArn [("deploy".toList, "arn:aws:iam::111:role/deploy".toList)]
      none "other".toList = .error () := by
  have h := role_arn_resolution
    [("deploy".toList, "arn:aws:iam::111:role/deploy".toList)] none
    "deploy".toList (by decide)
  have h2 := role_arn_resolution
    [("deploy".toList, "arn:aws:iam::111:role/deploy".toList)] none
    "other".toList (by decide)
  exact ⟨h.2.1 (by decide) _ (by decide),
    h2.2.2.2.mpr ⟨by decide, by decide, by decide⟩⟩

/-! ## Lemmas on the variable-pattern matcher -/

theorem drop_wsRun (u : Str) : u.drop (wsRunLen u) = u.dropWhile reIsSpace := by
  have h := List.drop_left (u.takeWhile reIsSpace) (u.dropWhile reIsSpace)
  rw [List.takeWhile_append_dropWhile] at h
  exact h

theorem matchTail_eq (u : Str) :
    matchTail u =
      if strStarts [rbr, rbr] (u.dropWhile reIsSpace) then
        some ((u.dropWhile reIsSpace).drop 2)
      else none := by
  unfold matchTail
  rw [drop_wsRun]

theorem containsSub_cons_false (pat : Str) (x : Char) (xs : Str)
    (h : containsSub pat (x :: xs) = false) : containsSub pat xs = false := by
  rw [containsSub, Bool.or_eq_false_iff] at h
  exact h.2

theorem containsSub_of_starts (pat s : Str) (h : strStarts pat s = true) :
    containsSub pat s = true := by
  cases s with
  | nil => rw [containsSub]; exact h
  | cons c cs => rw [containsSub, h, Bool.true_or]

theorem containsSub_dropWhile (pat : Str) (p : Char → Bool) (l : Str)
    (h : containsSub pat (l.dropWhile p) = true) : containsSub pat l = true := by
  induction l with
  | nil => rw [List.dropWhile_nil] at h; exact h
  | cons c cs ih =>
    rw [List.dropWhile_cons] at h
    by_cases hc : p c = true
    · rw [if_pos hc] at h
      rw [containsSub, ih h, Bool.or_true]
    · rw [if_neg hc] at h
      exact h

theorem dropWhile_head_false {α : Type} (p : α → Bool) (l : List α) (c : α)
    (d : List α) (h : l.dropWhile p = c :: d) : p c = false := by
  induction l with
  | nil => rw [List.dropWhile_nil] at h; exact absurd h (by simp)
  | cons x xs ih =>
    rw [List.dropWhile_cons] at h
    by_cases hx : p x = true
    · rw [if_pos hx] at h
      exact ih h
    · rw [if_neg hx] at h
      injection h with h1 _
      rw [← h1]
      simp at hx
      rw [hx]

theorem lazyGroup_cons (x : Char) (xs : Str) (hx : ¬ x = '\n') :
    lazyGroup (x :: xs) =
      match matchTail xs with
      | some post => some ([x], post)
      | none => (lazyGroup xs).map fun p => (x :: p.1, p.2) := by
  rw [lazyGroup, if_neg hx]

theorem lazyGroup_full (ident : Str) (h1 : ident ≠ [])
    (h2 : ∀ c ∈ ident, c ≠ '\n')
    (h3 : containsSub [rbr, rbr] ident = false)
    (h5 : ∀ c, ident.getLast? = some c → pyIsSpace c = false) :
    lazyGroup (ident ++ ' ' :: rbr :: rbr :: []) = some (ident, []) := by
  induction ident with
  | nil => exact absurd rfl h1
  | cons x xs ih =>
    cases xs with
    | nil =>
      have hx : ¬ x = '\n' := h2 x (List.mem_cons_self x [])
      have hmt : matchTail (' ' :: rbr :: rbr :: []) = some [] := by decide
      show lazyGroup (x :: ' ' :: rbr :: rbr :: []) = some ([x], [])
      rw [lazyGroup_cons x _ hx, hmt]
    | cons y ys =>
      have hx : ¬ x = '\n' := h2 x (List.mem_cons_self x (y :: ys))
      have hlast : ∀ c, (y :: ys).getLast? = some c → pyIsSpace c = false := by
        intro c hcl
        exact h5 c (by rw [List.getLast?_cons_cons]; exact hcl)
      have hmt : matchTail ((y :: ys) ++ ' ' :: rbr :: rbr :: []) = none := by
        rw [matchTail_eq]
        rw [List.dropWhile_append]
        by_cases hd : ((y :: ys).dropWhile reIsSpace).isEmpty = true
        · -- y :: ys would be all whitespace, contradicting the last character
          rw [List.isEmpty_iff] at hd
          have hall := List.dropWhile_eq_nil_iff.mp hd
          cases hys : (y :: ys).getLast? with
          | none => simp at hys
          | some c =>
            have hcmem : c ∈ y :: ys :=
              List.mem_of_mem_getLast? (by rw [hys]; rfl)
            have hsp : reIsSpace c = true := hall c hcmem
            rw [reIsSpace] at hsp
            rw [h5 c (by rw [List.getLast?_cons_cons]; exact hys)] at hsp
            exact absurd hsp (by simp)
        · rw [if_neg hd]
          cases hdrop : (y :: ys).dropWhile reIsSpace with
          | nil => rw [hdrop] at hd; exact absurd rfl hd
          | cons c1 d1 =>
            cases d1 with
            | nil =>
              simp only [List.cons_append, List.nil_append]
              rw [if_neg ?_]
              intro hs
              rw [strStarts, listStarts] at hs
              by_cases hc1 : rbr = c1
              · rw [if_pos hc1] at hs
                rw [listStarts] at hs
                rw [if_neg (by decide : ¬ rbr = ' ')] at hs
                exact absurd hs (by simp)
              · rw [if_neg hc1] at hs
                exact absurd hs (by simp)
            | cons c2 d2 =>
              simp only [List.cons_append]
              rw [if_neg ?_]
              intro hs
              rw [strStarts, listStarts] at hs
              by_cases hc1 : rbr = c1
              · rw [if_pos hc1] at hs
                rw [listStarts] at hs
                by_cases hc2 : rbr = c2
                · -- the inner text would contain the closing braces
                  have hsub : containsSub [rbr, rbr] (y :: ys) = true := by
                    apply containsSub_dropWhile [rbr, rbr] reIsSpace
                    rw [hdrop]
                    apply containsSub_of_starts
                    rw [strStarts, listStarts, if_pos hc1, listStarts,
                      if_pos hc2]
                    rfl
                  have h3' : containsSub [rbr, rbr] (y :: ys) = false :=
                    containsSub_cons_false _ _ _ h3
                  rw [hsub] at h3'
                  exact absurd h3' (by simp)
                · rw [if_neg hc2] at hs
                  exact absurd hs (by simp)
              · rw [if_neg hc1] at hs
                exact absurd hs (by simp)
      have ihr := ih (by simp) (fun c hc => h2 c (List.mem_cons_of_mem x hc))
        (containsSub_cons_false _ _ _ h3) hlast
      rw [List.cons_append, lazyGroup_cons x _ hx, hmt, ihr]
      rfl

theorem wsRunLen_braced_tail (ident : Str) (h1 : ident ≠ [])
    (h4 : ∀ c, ident.head? = some c → pyIsSpace c = false) :
    wsRunLen (' ' :: (ident ++ ' ' :: rbr :: rbr :: [])) = 1 := by
  cases ident with
  | nil => exact absurd rfl h1
  | cons c cs =>
    have hc : pyIsSpace c = false := h4 c rfl
    unfold wsRunLen
    rw [List.cons_append]
    rw [List.takeWhile_cons_of_pos (by decide : reIsSpace ' ' = true)]
    rw [List.takeWhile_cons_of_neg (by simp [reIsSpace, hc])]
    simp

theorem tryLead_braced (ident : Str) (h1 : ident ≠ [])
    (h2 : ∀ c ∈ ident, c ≠ '\n')
    (h3 : containsSub [rbr, rbr] ident = false)
    (h4 : ∀ c, ident.head? = some c → pyIsSpace c = false)
    (h5 : ∀ c, ident.getLast? = some c → pyIsSpace c = false) :
    tryLead (' ' :: (ident ++ ' ' :: rbr :: rbr :: []))
      (wsRunLen (' ' :: (ident ++ ' ' :: rbr :: rbr :: []))) =
      some (ident, []) := by
  rw [wsRunLen_braced_tail ident h1 h4]
  rw [show (1 : Nat) = 0 + 1 from rfl, tryLead]
  rw [show (' ' :: (ident ++ ' ' :: rbr :: rbr :: [])).drop (0 + 1) =
    ident ++ ' ' :: rbr :: rbr :: [] from rfl]
  rw [lazyGroup_full ident h1 h2 h3 h5]

theorem matchBraceAt_braced (ident : Str) (h1 : ident ≠ [])
    (h2 : ∀ c ∈ ident, c ≠ '\n')
    (h3 : containsSub [rbr, rbr] ident = false)
    (h4 : ∀ c, ident.head? = some c → pyIsSpace c = false)
    (h5 : ∀ c, ident.getLast? = some c → pyIsSpace c = false) :
    matchBraceAt (braced ident) = some (braced ident, ident, []) := by
  have htl := tryLead_braced ident h1 h2 h3 h4 h5
  rw [braced, matchBraceAt]
  rw [if_pos (by simp [strStarts, listStarts])]
  rw [show (lbr :: lbr :: ' ' :: (ident ++ ' ' :: rbr :: rbr :: [])).drop 2 =
    ' ' :: (ident ++ ' ' :: rbr :: rbr :: []) from rfl, htl]
  simp [List.take_length]

theorem findMatch_braced (ident : Str) (h1 : ident ≠ [])
    (h2 : ∀ c ∈ ident, c ≠ '\n')
    (h3 : containsSub [rbr, rbr] ident = false)
    (h4 : ∀ c, ident.head? = some c → pyIsSpace c = false)
    (h5 : ∀ c, ident.getLast? = some c → pyIsSpace c = false) :
    findMatch (braced ident) = some ([], braced ident, ident, []) := by
  have hmb := matchBraceAt_braced ident h1 h2 h3 h4 h5
  rw [braced] at hmb ⊢
  rw [findMatch, hmb]

theorem subAll_nil (getSess : Option Str → Option Str → Except AwsErr Nat)
    (hresolve : Str → Nat → List (Str × Str) → Except AwsErr (Option Str))
    (vars : List (Str × Str)) :
    ∀ fuel, subAll getSess hresolve vars fuel [] = .ok [] := by
  intro fuel
  cases fuel with
  | zero => rw [subAll]
  | succ n => rw [subAll, show findMatch [] = none from rfl]

/-- C1 (amended): for a single-placeholder template whose inner text is an
`aws:` identifier, substitution leaves the whole placeholder text unchanged
when resolution yields no value; but a malformed identifier or an
unsupported resource type makes `process_variables` raise the
`ValueError` instead of leaving the placeholder in place, because
`replace_variable` calls the parser and the resolver without catching
their errors. -/
theorem substitution_amended
    (getSess : Option Str → Option Str → Except AwsErr Nat)
    (hresolve : Str → Nat → List (Str × Str) → Except AwsErr (Option Str))
    (vars : List (Str × Str)) (ident : Str)
    (h1 : ident ≠ []) (h2 : ∀ c ∈ ident, c ≠ '\n')
    (h3 : containsSub [rbr, rbr] ident = false)
    (h4 : ∀ c, ident.head? = some c → pyIsSpace c = false)
    (h5 : ∀ c, ident.getLast? = some c → pyIsSpace c = false)
    (haws : strStarts ('a' :: 'w' :: 's' :: ':' :: []) ident = true) :
    (∀ e, parseResourceIdentifier ident = .error e →
      processVariables getSess hresolve vars (braced ident) =
        .error (.parseFail e)) ∧
    (∀ acc role ty q,
      parseResourceIdentifier ident = .ok (acc, role, ty, q) →
      ty ∉ resourceHandlers →
      processVariables getSess hresolve vars (braced ident) =
        .error (.unsupported ty)) ∧
    (∀ acc role ty q,
      parseResourceIdentifier ident = .ok (acc, role, ty, q) →
      resolveAwsResource getSess hresolve ty q acc role = .ok none →
      processVariables getSess hresolve vars (braced ident) =
        .ok (braced ident)) := by
  have hfm := findMatch_braced ident h1 h2 h3 h4 h5
  have hstep : ∀ out,
      replaceVariable getSess hresolve vars (braced ident) ident = out →
      processVariables getSess hresolve vars (braced ident) =
        (match out with
         | .error e => .error e
         | .ok r =>
           match subAll getSess hresolve vars (braced ident).length [] with
           | .error e => .error e
           | .ok rest => .ok ([] ++ r ++ rest)) := by
    intro out hout
    subst hout
    rw [processVariables, subAll, hfm]
  refine ⟨?_, ?_, ?_⟩
  · intro e he
    have hrv : replaceVariable getSess hresolve vars (braced ident) ident =
        .error (.parseFail e) := by
      rw [replaceVariable, if_pos haws]
      simp only [he]
    rw [hstep _ hrv]
  · intro acc role ty q he hty
    have hresolve0 : resolveAwsResource getSess hresolve ty q acc role =
        .error () := by
      rw [resolveAwsResource, if_neg hty]
    have hrv : replaceVariable getSess hresolve vars (braced ident) ident =
        .error (.unsupported ty) := by
      rw [replaceVariable, if_pos haws]
      simp only [he, hresolve0]
    rw [hstep _ hrv]
  · intro acc role ty q he hres
    have hrv : replaceVariable getSess hresolve vars (braced ident) ident =
        .ok (braced ident) := by
      rw [replaceVariable, if_pos haws]
      simp only [he, hres]
      rfl
    rw [hstep _ hrv, subAll_nil]
    simp

theorem substitution_amended_witness :
    processVariables sessOk hresNone [] (braced "aws:rds:name=x".toList) =
      .ok (braced "aws:rds:name=x".toList) := by
  have h := substitution_amended sessOk hresNone [] "aws:rds:name=x".toList
    (by decide) (by decide) (by decide) (by decide) (by decide) (by decide)
  exact h.2.2 none none "rds".toList [("name".toList, "x".toList)]
    (by decide) (by decide)

/-- C1 counterexample: substituting the placeholder
`\x7b\x7b aws:unknown:name=x \x7d\x7d` with an empty variable mapping does not
return the template text unchanged — `resolve_aws_resource` raises
`ValueError: Unsupported resource type` and `process_variables` lets it
propagate. -/
theorem substitution_raises_counterexample :
    processVariables sessOk hresNone []
        (braced "aws:unknown:name=x".toList) =
      .error (.unsupported "unknown".toList) ∧
    processVariables sessOk hresNone []
        (braced "aws:unknown:name=x".toList) ≠
      .ok (braced "aws:unknown:name=x".toList) := by
  refine ⟨by decide, by decide⟩

/-! ## Lemmas for the parsing round-trip -/

theorem splitFirst_append (c : Char) (a b : Str) (h : c ∉ a) :
    splitFirst c (a ++ c :: b) = some (a, b) := by
  induction a with
  | nil =>
    rw [List.nil_append, splitFirst, if_pos rfl]
  | cons x xs ih =>
    have hx : ¬ x = c := fun hc => h (hc ▸ List.mem_cons_self x xs)
    rw [List.cons_append, splitFirst, if_neg hx,
      ih (fun hc => h (List.mem_cons_of_mem x hc))]
    rfl

theorem splitOn_not_mem (c : Char) (s : Str) (h : c ∉ s) :
    splitOn c s = [s] := by
  induction s with
  | nil => rw [splitOn]
  | cons x xs ih =>
    have hx : ¬ x = c := fun hc => h (hc ▸ List.mem_cons_self x xs)
    rw [splitOn, if_neg hx, ih (fun hc => h (List.mem_cons_of_mem x hc))]

theorem splitOn_append_sep (c : Char) (s t : Str) (h : c ∉ s) :
    splitOn c (s ++ c :: t) = s :: splitOn c t := by
  induction s with
  | nil =>
    rw [List.nil_append, splitOn, if_pos rfl]
  | cons x xs ih =>
    have hx : ¬ x = c := fun hc => h (hc ▸ List.mem_cons_self x xs)
    rw [List.cons_append, splitOn, if_neg hx,
      ih (fun hc => h (List.mem_cons_of_mem x hc))]

theorem splitOn_joinWith (c : Char) (segs : List Str) (hne : segs ≠ [])
    (h : ∀ s ∈ segs, c ∉ s) :
    splitOn c (joinWith [c] segs) = segs := by
  induction segs with
  | nil => exact absurd rfl hne
  | cons s rest ih =>
    cases rest with
    | nil =>
      rw [joinWith, splitOn_not_mem c s (h s (List.mem_cons_self s []))]
    | cons s2 rest2 =>
      rw [joinWith, List.append_assoc, List.singleton_append]
      rw [splitOn_append_sep c s _ (h s (List.mem_cons_self s _))]
      rw [ih (List.cons_ne_nil s2 rest2)
        (fun x hx => h x (List.mem_cons_of_mem s hx))]
      exact List.cons_ne_nil s2 rest2

theorem mem_joinWith (sep : Str) (segs : List Str) (x : Char)
    (hx : x ∈ joinWith sep segs) :
    x ∈ sep ∨ ∃ s ∈ segs, x ∈ s := by
  induction segs with
  | nil => rw [joinWith] at hx; exact absurd hx (List.not_mem_nil x)
  | cons s rest ih =>
    cases rest with
    | nil =>
      rw [joinWith] at hx
      exact Or.inr ⟨s, List.mem_cons_self s [], hx⟩
    | cons s2 rest2 =>
      rw [joinWith] at hx
      rcases List.mem_append.mp hx with h1 | h1
      · rcases List.mem_append.mp h1 with h2 | h2
        · exact Or.inr ⟨s, List.mem_cons_self s _, h2⟩
        · exact Or.inl h2
      · rcases ih h1 with h3 | ⟨s3, hs3, hxs3⟩
        · exact Or.inl h3
        · exact Or.inr ⟨s3, List.mem_cons_of_mem s hs3, hxs3⟩
      · exact List.cons_ne_nil s2 rest2

theorem dotPlusDollar_of_no_newline (q : Str) (h1 : q ≠ [])
    (h2 : ∀ c ∈ q, c ≠ '\n') : dotPlusDollar q = some q := by
  unfold dotPlusDollar
  rw [if_pos ⟨h1, List.all_eq_true.mpr fun c hc => decide_eq_true (h2 c hc)⟩]

theorem dropWhile_append_mid (p : Char → Bool) (m : Char) (hm : p m = false)
    (a b : Str) :
    List.dropWhile p (a ++ m :: b) = a.dropWhile p ++ m :: b := by
  induction a with
  | nil =>
    rw [List.nil_append, List.dropWhile_cons, if_neg (by rw [hm]; simp),
      List.dropWhile_nil, List.nil_append]
  | cons c cs ih =>
    rw [List.cons_append, List.dropWhile_cons, List.dropWhile_cons]
    by_cases hc : p c = true
    · rw [if_pos hc, if_pos hc, ih]
    · rw [if_neg hc, if_neg hc, List.cons_append]

theorem pyStripLead_append (k v : Str) :
    pyStripLead (k ++ '=' :: v) = pyStripLead k ++ '=' :: v :=
  dropWhile_append_mid pyIsSpace '=' (by decide) k v

theorem pyStripTrail_append (k v : Str) :
    pyStripTrail (k ++ '=' :: v) = k ++ '=' :: pyStripTrail v := by
  unfold pyStripTrail
  rw [List.reverse_append, List.reverse_cons, List.append_assoc,
    List.singleton_append]
  rw [dropWhile_append_mid pyIsSpace '=' (by decide)]
  rw [List.reverse_append, List.reverse_cons, List.reverse_reverse,
    List.append_assoc, List.singleton_append]

theorem pyStrip_append_eq (k v : Str) :
    pyStrip (k ++ '=' :: v) = pyStripLead k ++ '=' :: pyStripTrail v := by
  unfold pyStrip
  rw [pyStripLead_append, pyStripTrail_append]

theorem dropWhile_idem (p : Char → Bool) (l : Str) :
    (l.dropWhile p).dropWhile p = l.dropWhile p := by
  cases h : l.dropWhile p with
  | nil => rw [List.dropWhile_nil]
  | cons c d =>
    have hc := dropWhile_head_false p l c d h
    rw [List.dropWhile_cons, if_neg (by rw [hc]; simp)]

theorem pyStripLead_idem (s : Str) :
    pyStripLead (pyStripLead s) = pyStripLead s := dropWhile_idem pyIsSpace s

theorem pyStripTrail_idem (s : Str) :
    pyStripTrail (pyStripTrail s) = pyStripTrail s := by
  unfold pyStripTrail
  rw [List.reverse_reverse, dropWhile_idem]

theorem pyStrip_stripLead (k : Str) : pyStrip (pyStripLead k) = pyStrip k := by
  unfold pyStrip
  rw [pyStripLead_idem]

theorem pyStripTrail_nil_all (s : Str) (h : pyStripTrail s = []) :
    ∀ c ∈ s, pyIsSpace c = true := by
  unfold pyStripTrail at h
  rw [List.reverse_eq_nil_iff] at h
  intro c hc
  exact List.dropWhile_eq_nil_iff.mp h c (List.mem_reverse.mpr hc)

theorem pyStripTrail_cons (c : Char) (v : Str) :
    pyStripTrail (c :: v) =
      if pyStripTrail v = [] then (if pyIsSpace c then [] else [c])
      else c :: pyStripTrail v := by
  unfold pyStripTrail
  rw [List.reverse_cons, List.dropWhile_append]
  by_cases h : (List.dropWhile pyIsSpace v.reverse).isEmpty = true
  · rw [if_pos h]
    rw [List.isEmpty_iff] at h
    rw [if_pos (by rw [h]; rfl)]
    by_cases hc : pyIsSpace c = true
    · rw [show List.dropWhile pyIsSpace [c] = [] from by
        rw [List.dropWhile_cons, if_pos hc, List.dropWhile_nil]]
      rw [if_pos hc]
      rfl
    · rw [show List.dropWhile pyIsSpace [c] = [c] from by
        rw [List.dropWhile_cons, if_neg hc]]
      rw [if_neg hc]
      rfl
  · rw [if_neg h]
    rw [List.isEmpty_iff] at h
    rw [if_neg (by
      intro hc
      rw [List.reverse_eq_nil_iff] at hc
      exact h hc)]
    rw [List.reverse_append, List.reverse_cons, List.reverse_nil,
      List.nil_append, List.singleton_append]

theorem stripLead_stripTrail_comm (s : Str) :
    pyStripLead (pyStripTrail s) = pyStripTrail (pyStripLead s) := by
  induction s with
  | nil => rfl
  | cons c v ih =>
    rw [pyStripTrail_cons]
    by_cases hc : pyIsSpace c = true
    · rw [show pyStripLead (c :: v) = pyStripLead v from by
        unfold pyStripLead
        rw [List.dropWhile_cons, if_pos hc]]
      by_cases hv : pyStripTrail v = []
      · rw [if_pos hv, if_pos hc]
        have hall := pyStripTrail_nil_all v hv
        have hlead : pyStripLead v = [] := by
          unfold pyStripLead
          rw [List.dropWhile_eq_nil_iff]
          exact hall
        rw [hlead]
        rfl
      · rw [if_neg hv]
        rw [show pyStripLead (c :: pyStripTrail v) =
            pyStripLead (pyStripTrail v) from by
          unfold pyStripLead
          rw [List.dropWhile_cons, if_pos hc]]
        exact ih
    · rw [show pyStripLead (c :: v) = c :: v from by
        unfold pyStripLead
        rw [List.dropWhile_cons, if_neg hc]]
      rw [pyStripTrail_cons]
      by_cases hv : pyStripTrail v = []
      · rw [if_pos hv, if_neg hc]
        unfold pyStripLead
        rw [List.dropWhile_cons, if_neg hc]
      · rw [if_neg hv]
        unfold pyStripLead
        rw [List.dropWhile_cons, if_neg hc]

theorem pyStrip_stripTrail (v : Str) :
    pyStrip (pyStripTrail v) = pyStrip v := by
  unfold pyStrip
  rw [stripLead_stripTrail_comm, pyStripTrail_idem]

theorem foldParams_build (pairs : List (Str × Str)) :
    ∀ acc : List (Str × Str),
    (∀ kv ∈ pairs, pyStrip kv.1 ≠ [] ∧ pyStrip kv.2 ≠ [] ∧ '=' ∉ kv.1) →
    foldParams (pairs.map fun kv => kv.1 ++ '=' :: kv.2) acc =
      .ok (pairs.foldl
        (fun m kv => dictInsert m (pyStrip kv.1) (pyStrip kv.2)) acc) := by
  induction pairs with
  | nil => intro acc _; rw [List.map_nil, foldParams, List.foldl_nil]
  | cons kv rest ih =>
    intro acc h
    obtain ⟨k, v⟩ := kv
    obtain ⟨hk, hv, hek⟩ := h (k, v) (List.mem_cons_self _ _)
    dsimp only at hk hv hek
    have hpstrip : pyStrip (k ++ '=' :: v) =
        pyStripLead k ++ '=' :: pyStripTrail v := pyStrip_append_eq k v
    have hne : pyStrip (k ++ '=' :: v) ≠ [] := by
      rw [hpstrip]
      cases pyStripLead k <;> simp
    have hmem : '=' ∈ pyStrip (k ++ '=' :: v) := by
      rw [hpstrip]
      exact List.mem_append.mpr (Or.inr (List.mem_cons_self _ _))
    have hcont : (pyStrip (k ++ '=' :: v)).contains '=' = true :=
      List.elem_iff.mpr hmem
    have heklead : '=' ∉ pyStripLead k :=
      fun hc => hek (mem_of_dropWhile pyIsSpace k '=' hc)
    have hsplit : splitFirst '=' (pyStrip (k ++ '=' :: v)) =
        some (pyStripLead k, pyStripTrail v) := by
      rw [hpstrip]
      exact splitFirst_append '=' _ _ heklead
    rw [List.map_cons]
    dsimp only
    rw [foldParams, if_neg hne, if_neg (not_not_intro hcont), hsplit]
    dsimp only
    rw [if_neg (show ¬ pyStrip (pyStripLead k) = [] from by
      rw [pyStrip_stripLead]; exact hk)]
    rw [if_neg (show ¬ pyStrip (pyStripTrail v) = [] from by
      rw [pyStrip_stripTrail]; exact hv)]
    rw [pyStrip_stripLead, pyStrip_stripTrail]
    rw [ih _ (fun x hx => h x (List.mem_cons_of_mem _ hx))]
    rw [List.foldl_cons]

theorem tryTypeQuery_build (ty Q : Str) (hty1 : ty ≠ []) (hty2 : ':' ∉ ty)
    (hQ1 : Q ≠ []) (hQ2 : ∀ c ∈ Q, c ≠ '\n') :
    tryTypeQuery (ty ++ ':' :: Q) = some (ty, Q) := by
  unfold tryTypeQuery
  rw [splitFirst_append ':' ty Q hty2]
  dsimp only
  rw [if_neg hty1, dotPlusDollar_of_no_newline Q hQ1 hQ2]
  rfl

theorem starts_append_sep_false (pat : Str) :
    ∀ ty Q : Str, ':' ∉ pat → ':' ∉ ty → strStarts pat ty = false →
    strStarts pat (ty ++ ':' :: Q) = false := by
  induction pat with
  | nil =>
    intro ty Q _ _ h2
    exact absurd h2 (by rw [strStarts, listStarts]; simp)
  | cons p ps ih =>
    intro ty Q hsep h1 h2
    cases ty with
    | nil =>
      have hp : ¬ p = ':' := fun hc => hsep (hc ▸ List.mem_cons_self p ps)
      rw [List.nil_append, strStarts, listStarts, if_neg hp]
    | cons t ts =>
      rw [List.cons_append, strStarts, listStarts]
      rw [strStarts, listStarts] at h2
      by_cases hpt : p = t
      · rw [if_pos hpt] at h2 ⊢
        exact ih ts Q (fun hc => hsep (List.mem_cons_of_mem p hc))
          (fun hc => h1 (List.mem_cons_of_mem t hc)) h2
      · rw [if_neg hpt]

theorem joinWith_ne_nil (sep : Str) (s : Str) (rest : List Str)
    (hs : s ≠ []) : joinWith sep (s :: rest) ≠ [] := by
  cases rest with
  | nil => rw [joinWith]; exact hs
  | cons s2 rest2 =>
    rw [joinWith]
    simp [List.append_eq_nil, hs]
    exact List.cons_ne_nil s2 rest2

theorem mkQuery_ne_nil (pairs : List (Str × Str)) (hpairs : pairs ≠ []) :
    mkQuery pairs ≠ [] := by
  cases pairs with
  | nil => exact absurd rfl hpairs
  | cons kv rest =>
    rw [mkQuery, List.map_cons]
    apply joinWith_ne_nil
    cases kv.1 <;> simp

theorem mkQuery_no_comma_segs (pairs : List (Str × Str))
    (hkv : ∀ kv ∈ pairs, ',' ∉ kv.1 ∧ ',' ∉ kv.2) :
    ∀ s ∈ pairs.map fun kv => kv.1 ++ '=' :: kv.2, ',' ∉ s := by
  intro s hs hc
  obtain ⟨kv, hkvm, hseq⟩ := List.mem_map.mp hs
  rw [← hseq] at hc
  rcases List.mem_append.mp hc with h1 | h1
  · exact (hkv kv hkvm).1 h1
  · rcases List.mem_cons.mp h1 with h2 | h2
    · exact absurd h2 (by decide)
    · exact (hkv kv hkvm).2 h2

theorem mkQuery_no_newline (pairs : List (Str × Str))
    (hkv : ∀ kv ∈ pairs, '\n' ∉ kv.1 ∧ '\n' ∉ kv.2) :
    ∀ c ∈ mkQuery pairs, c ≠ '\n' := by
  intro c hc hceq
  subst hceq
  rw [mkQuery] at hc
  rcases mem_joinWith _ _ _ hc with h1 | ⟨s, hs, hcs⟩
  · rcases List.mem_cons.mp h1 with h2 | h2
    · exact absurd h2 (by decide)
    · exact absurd h2 (List.not_mem_nil _)
  · obtain ⟨kv, hkvm, hseq⟩ := List.mem_map.mp hs
    rw [← hseq] at hcs
    rcases List.mem_append.mp hcs with h1 | h1
    · exact (hkv kv hkvm).1 h1
    · rcases List.mem_cons.mp h1 with h2 | h2
      · exact absurd h2 (by decide)
      · exact (hkv kv hkvm).2 h2

theorem matchIdentifier_mkIdent_none (ty : Str) (pairs : List (Str × Str))
    (hty1 : ty ≠ []) (hty2 : ':' ∉ ty)
    (hrl : strStarts ('r' :: 'o' :: 'l' :: 'e' :: '=' :: []) ty = false)
    (hpairs : pairs ≠ [])
    (hkv : ∀ kv ∈ pairs, '\n' ∉ kv.1 ∧ '\n' ∉ kv.2) :
    matchIdentifier (mkIdent none ty pairs) =
      some (none, ty, mkQuery pairs) := by
  rw [mkIdent]
  rw [List.append_nil, List.append_assoc]
  rw [matchIdentifier]
  rw [if_pos (strStarts_append ('a' :: 'w' :: 's' :: ':' :: []) _)]
  rw [show (4 : Nat) = ('a' :: 'w' :: 's' :: ':' :: ([] : Str)).length from rfl]
  rw [List.drop_left]
  have hrb : tryRoleBranch (ty ++ ':' :: mkQuery pairs) = none := by
    rw [tryRoleBranch]
    rw [if_neg (by
      rw [starts_append_sep_false ('r' :: 'o' :: 'l' :: 'e' :: '=' :: [])
        ty (mkQuery pairs) (by decide) hty2 hrl]
      simp)]
  rw [hrb]
  rw [tryTypeQuery_build ty (mkQuery pairs) hty1 hty2
    (mkQuery_ne_nil pairs hpairs) (mkQuery_no_newline pairs hkv)]
  rfl

theorem matchIdentifier_mkIdent_some (r ty : Str) (pairs : List (Str × Str))
    (hr1 : r ≠ []) (hr2 : ':' ∉ r)
    (hty1 : ty ≠ []) (hty2 : ':' ∉ ty)
    (hpairs : pairs ≠ [])
    (hkv : ∀ kv ∈ pairs, '\n' ∉ kv.1 ∧ '\n' ∉ kv.2) :
    matchIdentifier (mkIdent (some r) ty pairs) =
      some (some r, ty, mkQuery pairs) := by
  rw [mkIdent]
  rw [List.append_assoc
    (('a' :: 'w' :: 's' :: ':' :: []) ++
      ((('r' :: 'o' :: 'l' :: 'e' :: '=' :: []) ++ r) ++ [':'])) ty
    (':' :: mkQuery pairs)]
  rw [List.append_assoc ('a' :: 'w' :: 's' :: ':' :: [])
    ((('r' :: 'o' :: 'l' :: 'e' :: '=' :: []) ++ r) ++ [':'])
    (ty ++ ':' :: mkQuery pairs)]
  rw [List.append_assoc (('r' :: 'o' :: 'l' :: 'e' :: '=' :: []) ++ r) [':']
    (ty ++ ':' :: mkQuery pairs)]
  rw [List.singleton_append]
  rw [List.append_assoc ('r' :: 'o' :: 'l' :: 'e' :: '=' :: []) r
    (':' :: (ty ++ ':' :: mkQuery pairs))]
  rw [matchIdentifier]
  rw [if_pos (strStarts_append ('a' :: 'w' :: 's' :: ':' :: []) _)]
  rw [show (4 : Nat) = ('a' :: 'w' :: 's' :: ':' :: ([] : Str)).length from rfl]
  rw [List.drop_left]
  have hrb : tryRoleBranch
      (('r' :: 'o' :: 'l' :: 'e' :: '=' :: []) ++
        (r ++ ':' :: (ty ++ ':' :: mkQuery pairs))) =
      some (some r, ty, mkQuery pairs) := by
    rw [tryRoleBranch]
    rw [if_pos (strStarts_append ('r' :: 'o' :: 'l' :: 'e' :: '=' :: []) _)]
    rw [show (5 : Nat) =
      ('r' :: 'o' :: 'l' :: 'e' :: '=' :: ([] : Str)).length from rfl]
    rw [List.drop_left]
    rw [splitFirst_append ':' r _ hr2]
    dsimp only
    rw [if_neg hr1]
    rw [tryTypeQuery_build ty (mkQuery pairs) hty1 hty2
      (mkQuery_ne_nil pairs hpairs) (mkQuery_no_newline pairs hkv)]
    rfl
  rw [hrb]

/-- C9: for every well-formed identifier built from an optional role, a
resource type and a non-empty list of key=value pairs (no separators inside
keys, no comma or newline inside values, non-blank keys and values), the
parser extracts exactly the role, the type, and the pairs with whitespace
trimmed around keys and values and no other transformation; duplicate keys
are resolved by dict update, so a later occurrence of a key overwrites the
value of an earlier one (last write wins). -/
theorem parse_round_trip (role : Option Str) (ty : Str)
    (pairs : List (Str × Str))
    (hrole : ∀ r, role = some r → r ≠ [] ∧ ':' ∉ r)
    (hty1 : ty ≠ []) (hty2 : ':' ∉ ty)
    (hroleless : role = none →
      strStarts ('r' :: 'o' :: 'l' :: 'e' :: '=' :: []) ty = false)
    (hpairs : pairs ≠ [])
    (hkv : ∀ kv ∈ pairs,
      pyStrip kv.1 ≠ [] ∧ pyStrip kv.2 ≠ [] ∧ '=' ∉ kv.1 ∧
      ',' ∉ kv.1 ∧ ',' ∉ kv.2 ∧ '\n' ∉ kv.1 ∧ '\n' ∉ kv.2) :
    parseResourceIdentifier (mkIdent role ty pairs) =
      .ok (none, role, ty,
        pairs.foldl
          (fun m kv => dictInsert m (pyStrip kv.1) (pyStrip kv.2)) []) ∧
    ∀ key, alookup (pairs.foldl
        (fun m kv => dictInsert m (pyStrip kv.1) (pyStrip kv.2)) []) key =
      ((pairs.reverse.find? fun kv => decide (pyStrip kv.1 = key)).map
        fun kv => pyStrip kv.2) := by
  have hnl : ∀ kv ∈ pairs, '\n' ∉ kv.1 ∧ '\n' ∉ kv.2 :=
    fun kv h => ⟨(hkv kv h).2.2.2.2.2.1, (hkv kv h).2.2.2.2.2.2⟩
  have hsegs_ne : pairs.map (fun kv => kv.1 ++ '=' :: kv.2) ≠ [] :=
    fun h => hpairs (List.map_eq_nil_iff.mp h)
  have hnocomma : ∀ s ∈ pairs.map fun kv => kv.1 ++ '=' :: kv.2, ',' ∉ s :=
    mkQuery_no_comma_segs pairs
      (fun kv h => ⟨(hkv kv h).2.2.2.1, (hkv kv h).2.2.2.2.1⟩)
  have hfold : foldParams
      (splitOn ',' (mkQuery pairs)) [] =
      .ok (pairs.foldl
        (fun m kv => dictInsert m (pyStrip kv.1) (pyStrip kv.2)) []) := by
    rw [mkQuery, splitOn_joinWith ',' _ hsegs_ne hnocomma]
    exact foldParams_build pairs []
      (fun kv h => ⟨(hkv kv h).1, (hkv kv h).2.1, (hkv kv h).2.2.1⟩)
  constructor
  · cases role with
    | none =>
      have hm := matchIdentifier_mkIdent_none ty pairs hty1 hty2
        (hroleless rfl) hpairs hnl
      rw [parseResourceIdentifier, hm]
      dsimp only
      rw [if_neg (mkQuery_ne_nil pairs hpairs), hfold]
    | some r =>
      have hm := matchIdentifier_mkIdent_some r ty pairs
        (hrole r rfl).1 (hrole r rfl).2 hty1 hty2 hpairs hnl
      rw [parseResourceIdentifier, hm]
      dsimp only
      rw [if_neg (mkQuery_ne_nil pairs hpairs), hfold]
  · intro key
    rw [alookup_foldl_dictInsert (fun kv : Str × Str => pyStrip kv.1)
      (fun kv : Str × Str => pyStrip kv.2) pairs [] key]
    cases hf : pairs.reverse.find? fun kv => decide (pyStrip kv.1 = key) <;>
      rfl

theorem parse_round_trip_witness :
    parseResourceIdentifier
      (mkIdent (some "myrole".toList) "rds".toList
        [(" name".toList, " test ".toList),
         ("name".toList, "final".toList)]) =
      .ok (none, some "myrole".toList, "rds".toList,
        [("name".toList, "final".toList)]) := by
  have h := (parse_round_trip (some "myrole".toList) "rds".toList
    [(" name".toList, " test ".toList), ("name".toList, "final".toList)]
    (fun r hr => by
      rw [← Option.some.inj hr]
      exact ⟨by decide, by decide⟩)
    (by decide) (by decide)
    (fun hc => Option.noConfusion hc)
    (by decide) (by decide)).1
  exact h
